import Mathlib

/-!
# Verification of the SerialMonitor ingestion/buffering pipeline

Shallow embedding of the core pipeline of `pySerialPlot_fast.py` (the most
evolved copy in the repository) together with the fallback-sample path of
`pySerialPlot_downsampled.py` (namespace `DS`).

Modelling conventions:
* Python `float` values are modelled as exact rationals (`ℚ`); every float
  literal appearing in a wire line is an exact decimal, and all derived
  arithmetic (`/1000`, `/1e6`, the psi transform) is exact on the values the
  claims are about.
* The byte stream is modelled as a `List Char` (the source decodes with
  `errors='ignore'`, which is the identity on the ASCII data the protocol
  carries); the line terminator is `'\n'`.
* Python's `int(s)` is modelled by `pyInt?` (strip whitespace, optional sign,
  nonempty digit run) and `float(s)` by `pyFloat?` (optional sign, decimal
  mantissa, optional exponent); the exotic `float` spellings (`inf`, `nan`,
  underscore separators) are outside the model and none of the claims
  depends on them.
* Wall-clock reads (`time.monotonic()`) are passed in explicitly as integer
  microsecond values.
* Presentation-only state (the throttled monitor text, label strings, Qt
  widgets) is outside the model; the logging sinks are modelled by the list
  of rows written to them.
-/

namespace SerialMonitor

set_option maxRecDepth 40000

/-! ## Python numeric string parsing -/

/-- Numeric value of a digit run (most significant first). -/
def digitsVal (l : List Char) : ℕ :=
  l.foldl (fun a c => 10 * a + (c.toNat - 48)) 0

/-- Python `str.strip()`: drop leading and trailing whitespace. -/
def stripChars (l : List Char) : List Char :=
  ((l.dropWhile Char.isWhitespace).reverse.dropWhile Char.isWhitespace).reverse

/-- An optionally signed nonempty digit run, e.g. the exponent part of a
Python float literal, or a whole (already stripped) `int()` argument. -/
def signedDigits? (l : List Char) : Option ℤ :=
  match l with
  | [] => none
  | c :: cs =>
    if c = '+' then
      if cs ≠ [] ∧ cs.all Char.isDigit then some (digitsVal cs : ℤ) else none
    else if c = '-' then
      if cs ≠ [] ∧ cs.all Char.isDigit then some (-(digitsVal cs : ℤ)) else none
    else if (c :: cs).all Char.isDigit then some (digitsVal (c :: cs) : ℤ) else none

/-- Python `int(s)` on a string: whitespace is stripped, then an optionally
signed digit run.  Returns `none` where Python raises `ValueError`. -/
def pyInt? (l : List Char) : Option ℤ :=
  signedDigits? (stripChars l)

/-- Unsigned mantissa plus optional exponent of a Python float literal:
`digits [. digits] [e signed-digits]` with at least one mantissa digit. -/
def mantExp? (l : List Char) : Option ℚ :=
  let ip := l.takeWhile Char.isDigit
  let r1 := l.dropWhile Char.isDigit
  let fp := match r1 with
            | '.' :: r => r.takeWhile Char.isDigit
            | _ => []
  let r2 := match r1 with
            | '.' :: r => r.dropWhile Char.isDigit
            | _ => r1
  if ip = [] ∧ fp = [] then none
  else
    let base : ℚ := (digitsVal ip : ℚ) + (digitsVal fp : ℚ) / (10 : ℚ) ^ fp.length
    match r2 with
    | [] => some base
    | c :: r3 =>
      if c = 'e' ∨ c = 'E' then
        (signedDigits? r3).map (fun e => base * (10 : ℚ) ^ (e : ℤ))
      else none

/-- Python `float(s)` on a string, returning the exact rational value of the
decimal literal; `none` where Python raises `ValueError`. -/
def pyFloat? (l : List Char) : Option ℚ :=
  match stripChars l with
  | [] => none
  | c :: cs =>
    if c = '+' then mantExp? cs
    else if c = '-' then (mantExp? cs).map (fun q => -q)
    else mantExp? (c :: cs)

/-- Python `int(x)` on a float value: truncation toward zero. -/
def pyTrunc (q : ℚ) : ℤ :=
  if 0 ≤ q then ⌊q⌋ else ⌈q⌉

/-! ## Line-level string helpers -/

/-- Python `s.split(',')`: empty fields are kept, `[""]` on the empty string. -/
def splitComma : List Char → List (List Char)
  | [] => [[]]
  | c :: r =>
    if c = ',' then [] :: splitComma r
    else
      match splitComma r with
      | [] => [[c]]
      | h :: t => (c :: h) :: t

/-- The header-line test of `parse_line`:
`s.lower().startswith(("t_us", "t,", "time_us"))`, part of
`parse_line`. -/
def isHeaderLine (s : List Char) : Bool :=
  let low := s.map Char.toLower
  List.isPrefixOf "t_us".toList low || List.isPrefixOf "t,".toList low ||
    List.isPrefixOf "time_us".toList low

/-- Python `rstrip('\r')`: drop every trailing carriage return. -/
def rstripCR (l : List Char) : List Char :=
  (l.reverse.dropWhile (fun c => c = '\r')).reverse

/-! ## Frame Parser (`SerialPlotApp.parse_line` of `pySerialPlot_fast.py`) -/

/-- Full-scale pressure, `FS_PSI = 5.0` in the source. -/
def FS_PSI : ℚ := 5

/-- Sensor supply voltage, `VS_VOLTS = 5.0` in the source. -/
def VS_VOLTS : ℚ := 5

/-- The psi derivation of `parse_line` (lines 322–327 of the fast source):
`psi = FS_PSI * ((v_sensor / VS_VOLTS) - 0.10) / 0.80`, then the two
sequential clamping `if`s. -/
def psiOf (v_sensor : ℚ) : ℚ :=
  let p : ℚ := FS_PSI * ((v_sensor / VS_VOLTS) - 1/10) / (8/10)
  let p := if p < 0 then 0 else p
  if FS_PSI < p then FS_PSI else p

/-- A structured sample: the dict
`{"t_us", "raw", "avg", "v_adc", "v_sensor", "psi"}` built by `parse_line`. -/
structure Structured where
  t_us : ℤ
  raw : ℤ
  avg : ℚ
  v_adc : ℚ
  v_sensor : ℚ
  psi : ℚ
  deriving DecidableEq, Repr

/-- The two shapes `parse_line` can produce: a structured sample or the
single-scalar fallback dict `{"val": ...}`. -/
inductive ParsedSample where
  | structured (st : Structured) : ParsedSample
  | val (v : ℚ) : ParsedSample
  deriving DecidableEq, Repr

/-- The heuristic `_is_intlike_big(s)`: no `.`/`e`/`E` in the field and `abs(int(s)) > 20000`
(`False` when `int(s)` raises). -/
def isIntlikeBig (s : List Char) : Bool :=
  if s.contains '.' || s.contains 'e' || s.contains 'E' then false
  else
    match pyInt? s with
    | some v => decide (20000 < v.natAbs)
    | none => false

/-- The scaled-integer ("NEW int-only") branch of `parse_line`: all five
fields parse as `int`, `avg = field2/1000`, volts are microvolts `/1e6`. -/
def scaledDecode (p0 p1 p2 p3 p4 : List Char) : Option ParsedSample :=
  match pyInt? p0, pyInt? p1, pyInt? p2, pyInt? p3, pyInt? p4 with
  | some t, some r, some a, some va, some vs =>
    some (.structured ⟨t, r, (a : ℚ) / 1000, (va : ℚ) / 1000000,
      (vs : ℚ) / 1000000, psiOf ((vs : ℚ) / 1000000)⟩)
  | _, _, _, _, _ => none

/-- The float ("OLD float") branch of `parse_line`: `t_us = int(p0)`,
`raw = int(float(p1))`, the remaining three fields are `float`s used
directly. -/
def floatDecode (p0 p1 p2 p3 p4 : List Char) : Option ParsedSample :=
  match pyInt? p0, pyFloat? p1, pyFloat? p2, pyFloat? p3, pyFloat? p4 with
  | some t, some rq, some a, some va, some vs =>
    some (.structured ⟨t, pyTrunc rq, a, va, vs, psiOf vs⟩)
  | _, _, _, _, _ => none

/-- Model of `SerialPlotApp.parse_line` of `pySerialPlot_fast.py` (lines 287–332):
strip, discard empty and header lines, split on commas; with ≥ 5 fields pick
the encoding by `_is_intlike_big` on fields 3 and 4 and decode (any field
failure discards the line); with < 5 fields fall back to parsing the whole
stripped line as a single float. -/
def parse_line (s0 : List Char) : Option ParsedSample :=
  let s := stripChars s0
  if s = [] then none
  else if isHeaderLine s then none
  else
    match splitComma s with
    | p0 :: p1 :: p2 :: p3 :: p4 :: _ =>
      if isIntlikeBig p3 && isIntlikeBig p4 then scaledDecode p0 p1 p2 p3 p4
      else floatDecode p0 p1 p2 p3 p4
    | _ =>
      match pyFloat? s with
      | some v => some (.val v)
      | none => none

/-! ## Time-Series Buffer (the `x`/`y` deques and the trim code of
`poll_serial`, lines 380–390 of the fast source) -/

/-- The loop `while self.x and self.x[0] < t_min: self.x.popleft(); self.y.popleft()`. -/
def trimTime (tmin : ℚ) : List ℚ → List ℚ → List ℚ × List ℚ
  | [], y => ([], y)
  | hx :: tx, y => if hx < tmin then trimTime tmin tx y.tail else (hx :: tx, y)

/-- The hard cap: `if len(self.x) > self.max_points_cap: drop = len(self.x) - cap;`
pop `drop` oldest entries from both deques. -/
def trimCap (cap : ℕ) (x y : List ℚ) : List ℚ × List ℚ :=
  if cap < x.length then (x.drop (x.length - cap), y.drop (x.length - cap))
  else (x, y)

/-- One insertion-and-trim cycle: append `(t, v)` at the tail, trim by the
time window (`t_min = t_sec - buffer_seconds`), then enforce the hard cap. -/
def appendTrim (window : ℚ) (cap : ℕ) (x y : List ℚ) (t v : ℚ) :
    List ℚ × List ℚ :=
  let x1 := x ++ [t]
  let y1 := y ++ [v]
  let p := trimTime (t - window) x1 y1
  trimCap cap p.1 p.2

/-- One insertion-and-trim cycle on the paired buffer state. -/
def appendStep (window : ℚ) (cap : ℕ) (p : List ℚ × List ℚ) (s : ℚ × ℚ) :
    List ℚ × List ℚ :=
  appendTrim window cap p.1 p.2 s.1 s.2

/-- A bare sequence of insertion-and-trim cycles starting from an empty
buffer (the Time-Series Buffer contract in isolation). -/
def runAppends (window : ℚ) (cap : ℕ) (samples : List (ℚ × ℚ)) :
    List ℚ × List ℚ :=
  samples.foldl (appendStep window cap) ([], [])

/-! ## Session state and `poll_serial` of `pySerialPlot_fast.py` -/

/-- The Y-field selector (`field_selector` entries of the fast source). -/
inductive FieldSel where
  | psi | v_sensor | v_adc | avg | raw
  deriving DecidableEq, Repr

/-- The `y_val` selection, lines 372–378 of the fast source. -/
def selectY (f : FieldSel) (st : Structured) : ℚ :=
  match f with
  | .raw => (st.raw : ℚ)
  | .avg => st.avg
  | .v_adc => st.v_adc
  | .v_sensor => st.v_sensor
  | .psi => st.psi

/-- The ingestion-side state of one session of the fast app: time origin,
the two deques, the configuration the poll path reads, the two logging
sinks (modelled by the rows written to them so far) and the error flag
(models `label_status` being set by the `except` handler). -/
structure Session where
  t0_us : Option ℤ
  x : List ℚ
  y : List ℚ
  buffer_seconds : ℚ
  max_points_cap : ℕ
  field : FieldSel
  logging_raw : Bool
  logging_proc : Bool
  rawLog : List (List Char)
  procLog : List Structured
  errored : Bool
  deriving DecidableEq, Repr

/-- The raw-sink write (lines 348–349): one verbatim row per framed line
when raw logging is enabled. -/
def logRaw (s : Session) (rawBytes : List Char) : Session :=
  if s.logging_raw then { s with rawLog := s.rawLog ++ [rawBytes] } else s

/-- The processed-sink write (lines 361–366): one converted row per
structured sample when processed logging is enabled. -/
def logProc (s : Session) (st : Structured) : Session :=
  if s.logging_proc then { s with procLog := s.procLog ++ [st] } else s

/-- The per-line body of the ingestion loop (lines 345–390 of the fast
source).  Returns the updated session and `true` when the body raised: a
fallback `{"val": ...}` sample reaches `parsed['t_us']` (line 369), raising
`KeyError`, which the enclosing `except` catches — note that the raw row was
already written, while the processed-row write swallows its own `KeyError`
(`except: pass`) so no processed row is emitted. -/
def processLine (s : Session) (rawBytes : List Char) : Session × Bool :=
  let s := logRaw s rawBytes
  let line := rstripCR rawBytes
  match parse_line line with
  | none => (s, false)
  | some (.val _) => ({ s with errored := true }, true)
  | some (.structured st) =>
    let s := logProc s st
    let t0 := s.t0_us.getD st.t_us
    let t_sec : ℚ := ((st.t_us : ℚ) - (t0 : ℚ)) / 1000000
    let p := appendTrim s.buffer_seconds s.max_points_cap s.x s.y t_sec
      (selectY s.field st)
    ({ s with t0_us := some t0, x := p.1, y := p.2 }, false)

/-- The `while True: idx = rx.find(b'\n') ...` framing-and-processing loop of
`poll_serial`: scan the receive buffer, hand each terminated line to
`processLine`, stop early when the body raises (the exception aborts the
loop; bytes not yet consumed stay buffered).  `acc` is the prefix of the
current line scanned so far; the loop is entered with `acc = []`. -/
def drainLoop : List Char → List Char → Session → List Char × Session
  | acc, [], s => (acc, s)
  | acc, c :: rest, s =>
    if c = '\n' then
      let p := processLine s acc
      if p.2 then (rest, p.1) else drainLoop [] rest p.1
    else drainLoop (acc ++ [c]) rest s

/-- Whole-app state: the session, the receive carry-over buffer, and the
display-side state read only by `update_ui` (pause checkbox, decimation
spin boxes, the drawn curve). -/
structure AppState where
  sess : Session
  rx : List Char
  pause : Bool
  ds_spin : ℕ
  maxpoints_spin : ℕ
  curveX : List ℚ
  curveY : List ℚ
  deriving DecidableEq, Repr

/-- Model of `poll_serial` (lines 335–391 of the fast source): when bytes arrived,
extend the carry-over buffer and drain all complete lines through the
per-line body. -/
def poll_serial (a : AppState) (chunk : List Char) : AppState :=
  if chunk.isEmpty then a
  else
    let p := drainLoop [] (a.rx ++ chunk) a.sess
    { a with rx := p.1, sess := p.2 }

/-- Python `l[::k]` for `k ≥ 1`: every `k`-th element starting at index 0. -/
def sliceStep : List α → ℕ → List α
  | [], _ => []
  | h :: t, k => h :: sliceStep (t.drop (k - 1)) k
termination_by l _ => l.length
decreasing_by
  simp only [List.length_cons]
  exact Nat.lt_succ_of_le (List.length_drop _ t ▸ Nat.sub_le _ _)

/-- Model of `update_ui` (lines 395–419 of the fast source), restricted to the data it
changes in the model: when the buffer is nonempty and the display is not
paused, redraw the curve from the decimated snapshot.  Label text and the
throttled monitor are presentation-only and outside the model. -/
def update_ui (a : AppState) : AppState :=
  if a.sess.x ≠ [] ∧ a.pause = false then
    let n := a.sess.x.length
    let ds := max 1 a.ds_spin
    let maxp := max 200 a.maxpoints_spin
    let step := if maxp < n then max ds (n / maxp) else ds
    { a with curveX := sliceStep a.sess.x step, curveY := sliceStep a.sess.y step }
  else a

/-- Model of `reset_session_state` (lines 255–261): clear the carry-over buffer, both
deques, the time origin and the drawn curve. -/
def reset_session_state (a : AppState) : AppState :=
  { a with rx := [],
           sess := { a.sess with t0_us := none, x := [], y := [] },
           curveX := [], curveY := [] }

/-- The state built by `__init__` of the fast app: empty buffers, 10 s
window, 2 000 000-point cap, `psi` tracked, decimation `10`/`2000`. -/
def initState : AppState :=
  { sess := { t0_us := none, x := [], y := [], buffer_seconds := 10,
              max_points_cap := 2000000, field := .psi,
              logging_raw := false, logging_proc := false,
              rawLog := [], procLog := [], errored := false },
    rx := [], pause := false, ds_spin := 10, maxpoints_spin := 2000,
    curveX := [], curveY := [] }

/-- The operations that can hit the session state between poll cycles. -/
inductive Op where
  | poll (chunk : List Char)
  | reset
  | ui
  | setWindow (w : ℚ)
  | setField (f : FieldSel)
  | setPause (b : Bool)

/-- Apply one operation to the app state. -/
def applyOp (a : AppState) : Op → AppState
  | .poll chunk => poll_serial a chunk
  | .reset => reset_session_state a
  | .ui => update_ui a
  | .setWindow w => { a with sess := { a.sess with buffer_seconds := w } }
  | .setField f => { a with sess := { a.sess with field := f } }
  | .setPause b => { a with pause := b }

/-- Run a sequence of operations from a starting state. -/
def runOps (a : AppState) (ops : List Op) : AppState :=
  ops.foldl applyOp a

/-! ## Line Framer in isolation

The framing half of the poll loop (`self._rx_buf.extend(chunk)` followed by
`while True: idx = self._rx_buf.find(b'\n'); ...` — lines 341–345 of the
fast source): split the accumulated bytes at every terminator, emit the
pieces before terminators in order, keep the bytes after the last
terminator as the carry-over buffer. -/

/-- Split a byte sequence at every `'\n'`: the emitted `RawLine`s (in order)
and the unterminated remainder. -/
def splitLines : List Char → List (List Char) × List Char
  | [] => ([], [])
  | c :: cs =>
    let r := splitLines cs
    if c = '\n' then ([] :: r.1, r.2)
    else
      match r.1 with
      | [] => ([], c :: r.2)
      | h :: t => ((c :: h) :: t, r.2)

/-- The framer `feed(chunk)`: append the chunk to the carry-over buffer and drain every
complete line, returning the emitted lines and the new carry-over. -/
def framerFeed (buf chunk : List Char) : List (List Char) × List Char :=
  splitLines (buf ++ chunk)

/-- One framer feed, threading the accumulated emitted lines. -/
def framerStep (p : List (List Char) × List Char) (c : List Char) :
    List (List Char) × List Char :=
  let r := framerFeed p.2 c
  (p.1 ++ r.1, r.2)

/-- Feed a sequence of chunks one at a time through the framer, starting
from an empty carry-over buffer; collect every emitted line. -/
def framerFeedAll (chunks : List (List Char)) : List (List Char) × List Char :=
  chunks.foldl framerStep ([], [])

/-! ## The downsampled variant (`pySerialPlot_downsampled.py`), namespace `DS`

Only the pieces claim C5 depends on: its `parse_line` (whose float branch is
commented out in that source) and the per-line buffer-append body of its
`poll_serial` (lines 343–379), which unlike the fast variant has an explicit
host-clock path for fallback `{"val": ...}` samples. -/

namespace DS

/-- A parsed sample of the downsampled variant: its structured dict carries
no `psi` field. -/
inductive Parsed where
  | structured (t_us : ℤ) (raw : ℤ) (avg v_adc v_sensor : ℚ) : Parsed
  | val (v : ℚ) : Parsed
  deriving DecidableEq, Repr

/-- Model of `SerialPlotApp.parse_line` of `pySerialPlot_downsampled.py` (lines
270–310): strip, discard empty/header lines; with ≥ 5 fields only the
int-only format is attempted (the float branch is commented out); with < 5
fields fall back to a single float. -/
def parse_line (s0 : List Char) : Option Parsed :=
  let s := stripChars s0
  if s = [] then none
  else if isHeaderLine s then none
  else
    match splitComma s with
    | p0 :: p1 :: p2 :: p3 :: p4 :: _ =>
      match pyInt? p0, pyInt? p1, pyInt? p2, pyInt? p3, pyInt? p4 with
      | some t, some r, some a, some va, some vs =>
        some (.structured t r ((a : ℚ) / 1000) ((va : ℚ) / 1000000)
          ((vs : ℚ) / 1000000))
      | _, _, _, _, _ => none
    | _ =>
      match pyFloat? s with
      | some v => some (.val v)
      | none => none

/-- The downsampled field selector (no `psi` entry). -/
inductive FieldSel where
  | v_sensor | v_adc | avg | raw
  deriving DecidableEq, Repr

/-- Buffer-side session state of the downsampled variant. -/
structure Session where
  t0_us : Option ℤ
  x : List ℚ
  y : List ℚ
  buffer_seconds : ℚ
  max_points_cap : ℕ
  field : FieldSel
  deriving DecidableEq, Repr

/-- The per-line buffer-append body of the downsampled `poll_serial` (lines
343–379).  `now1` and `now2` are the values of the two successive
`int(time.monotonic() * 1e6)` host-clock reads in the `"val"` branch (the
second one is only reached after the first). -/
def processLine (s : Session) (line : List Char) (now1 now2 : ℤ) : Session :=
  match parse_line line with
  | none => s
  | some (.val v) =>
    let t0 := s.t0_us.getD now1
    let t_sec : ℚ := ((now2 : ℚ) - (t0 : ℚ)) / 1000000
    let p := appendTrim s.buffer_seconds s.max_points_cap s.x s.y t_sec v
    { s with t0_us := some t0, x := p.1, y := p.2 }
  | some (.structured t r a va vs) =>
    let t0 := s.t0_us.getD t
    let t_sec : ℚ := ((t : ℚ) - (t0 : ℚ)) / 1000000
    let yv : ℚ :=
      match s.field with
      | .raw => (r : ℚ)
      | .avg => a
      | .v_adc => va
      | .v_sensor => vs
    let p := appendTrim s.buffer_seconds s.max_points_cap s.x s.y t_sec yv
    { s with t0_us := some t0, x := p.1, y := p.2 }

/-- A fresh downsampled session as built by `__init__`/`reset_session_state`
(default field selection `v_sensor`). -/
def freshSession : Session :=
  { t0_us := none, x := [], y := [], buffer_seconds := 10,
    max_points_cap := 2000000, field := .v_sensor }

end DS

/-! ## Lemmas: Line Framer -/

/-- The carry-over part of a split never contains a terminator. -/
lemma splitLines_snd_no_newline : ∀ l : List Char, '\n' ∉ (splitLines l).2 := by
  intro l
  induction l with
  | nil => simp [splitLines]
  | cons c cs ih =>
    simp only [splitLines]
    by_cases hc : c = '\n'
    · simp [hc, ih]
    · simp only [if_neg hc]
      cases h : (splitLines cs).1 with
      | nil =>
        simp only [List.mem_cons]
        rintro (rfl | hm)
        · exact hc rfl
        · exact ih hm
      | cons h t => exact ih

/-- A terminator-free byte sequence splits into no lines and itself as
carry-over. -/
lemma splitLines_eq_of_no_newline : ∀ l : List Char, '\n' ∉ l →
    splitLines l = ([], l) := by
  intro l
  induction l with
  | nil => intro _; rfl
  | cons c cs ih =>
    intro hl
    have hc : c ≠ '\n' := fun h => hl (h ▸ List.mem_cons_self c cs)
    have hcs : '\n' ∉ cs := fun h => hl (List.mem_cons_of_mem c h)
    simp [splitLines, ih hcs, hc]

/-- One-step unfolding of `splitLines` on a cons cell. -/
lemma splitLines_cons (c : Char) (cs : List Char) :
    splitLines (c :: cs) =
      (if c = '\n' then ([] :: (splitLines cs).1, (splitLines cs).2)
       else
         match (splitLines cs).1 with
         | [] => ([], c :: (splitLines cs).2)
         | h :: t => ((c :: h) :: t, (splitLines cs).2)) := by
  simp only [splitLines]

/-- Splitting a concatenation: split the first part, then split its
carry-over prepended to the second part. -/
lemma splitLines_append : ∀ a b : List Char,
    splitLines (a ++ b) =
      ((splitLines a).1 ++ (splitLines ((splitLines a).2 ++ b)).1,
       (splitLines ((splitLines a).2 ++ b)).2) := by
  intro a
  induction a with
  | nil => intro b; simp [splitLines]
  | cons c cs ih =>
    intro b
    have key := ih b
    rw [List.cons_append, splitLines_cons, splitLines_cons, key]
    by_cases hc : c = '\n'
    · simp [hc]
    · simp only [if_neg hc]
      cases h : (splitLines cs).1 with
      | nil =>
        simp only [List.nil_append]
        rw [List.cons_append, splitLines_cons]
        cases h2 : (splitLines ((splitLines cs).2 ++ b)).1 with
        | nil => simp [if_neg hc, h2]
        | cons m ms => simp [if_neg hc, h2]
      | cons hL tL => simp [List.cons_append]

/-- Folding the framer over a chunk list from a terminator-free carry-over
equals splitting the carry-over followed by the flattened chunks at once. -/
lemma framerFeed_foldl : ∀ (chunks : List (List Char)) (acc : List (List Char))
    (buf : List Char), '\n' ∉ buf →
    chunks.foldl framerStep (acc, buf) =
      (acc ++ (splitLines (buf ++ chunks.flatten)).1,
       (splitLines (buf ++ chunks.flatten)).2) := by
  intro chunks
  induction chunks with
  | nil =>
    intro acc buf hb
    simp [splitLines_eq_of_no_newline buf hb]
  | cons c rest ih =>
    intro acc buf hb
    have hstep : framerStep (acc, buf) c =
        (acc ++ (splitLines (buf ++ c)).1, (splitLines (buf ++ c)).2) := rfl
    rw [List.foldl_cons, hstep,
      ih (acc ++ (splitLines (buf ++ c)).1) (splitLines (buf ++ c)).2
        (splitLines_snd_no_newline _),
      List.flatten_cons, ← List.append_assoc buf c rest.flatten,
      splitLines_append (buf ++ c)]
    simp [List.append_assoc]

/-- C3. For every byte sequence and every partition of it into chunks,
feeding the chunks one at a time to the Line Framer produces exactly the
same sequence of `RawLine` values (and the same final carry-over) as feeding
the whole sequence in one chunk: no line is emitted twice and no terminated
line is lost. -/
theorem c3_framer_chunk_invariance (chunks : List (List Char)) :
    framerFeedAll chunks = splitLines chunks.flatten := by
  unfold framerFeedAll
  rw [framerFeed_foldl chunks [] [] (by simp)]
  simp

/-! ## Lemmas: Time-Series Buffer trim behaviour -/

/-- The time trim is exactly `dropWhile (· < tmin)` on the time deque. -/
lemma trimTime_fst (tmin : ℚ) : ∀ (x y : List ℚ),
    (trimTime tmin x y).1 = x.dropWhile (fun b => decide (b < tmin)) := by
  intro x
  induction x with
  | nil => intro y; simp [trimTime]
  | cons hx tx ih =>
    intro y
    by_cases hlt : hx < tmin
    · simp [trimTime, hlt, List.dropWhile, ih]
    · simp [trimTime, hlt, List.dropWhile]

/-- The hard-cap trim is exactly `drop (length - cap)` on the time deque. -/
lemma trimCap_fst (cap : ℕ) (x y : List ℚ) :
    (trimCap cap x y).1 = x.drop (x.length - cap) := by
  unfold trimCap
  by_cases h : cap < x.length
  · simp [h]
  · have : x.length - cap = 0 := by omega
    simp [h, this]

/-- The time deque after one insertion-and-trim cycle, in closed form. -/
lemma appendTrim_fst (w : ℚ) (cap : ℕ) (x y : List ℚ) (t v : ℚ) :
    (appendTrim w cap x y t v).1 =
      ((x ++ [t]).dropWhile (fun b => decide (b < t - w))).drop
        (((x ++ [t]).dropWhile (fun b => decide (b < t - w))).length - cap) := by
  unfold appendTrim
  rw [trimCap_fst, trimTime_fst]

/-- The hard cap holds after every insertion-and-trim cycle, whatever the
previous state and the incoming sample. -/
lemma appendTrim_length_le (w : ℚ) (cap : ℕ) (x y : List ℚ) (t v : ℚ) :
    (appendTrim w cap x y t v).1.length ≤ cap := by
  rw [appendTrim_fst]
  rw [List.length_drop]
  omega

/-- The post-trim time deque is a suffix of the pre-trim deque with the new
sample at the tail. -/
lemma appendTrim_fst_suffix (w : ℚ) (cap : ℕ) (x y : List ℚ) (t v : ℚ) :
    (appendTrim w cap x y t v).1 <:+ x ++ [t] := by
  rw [appendTrim_fst]
  exact (List.drop_suffix _ _).trans (List.dropWhile_suffix _)

/-- In a sorted list, everything surviving `dropWhile (· < tmin)` is
`≥ tmin`. -/
lemma mem_dropWhile_sorted {tmin : ℚ} : ∀ {l : List ℚ},
    List.Sorted (· ≤ ·) l →
    ∀ a ∈ l.dropWhile (fun b => decide (b < tmin)), tmin ≤ a := by
  intro l
  induction l with
  | nil => intro _ a ha; simp [List.dropWhile] at ha
  | cons c cs ih =>
    intro hs a ha
    rw [List.sorted_cons] at hs
    by_cases hlt : c < tmin
    · rw [List.dropWhile_cons] at ha
      simp only [decide_eq_true_eq, if_pos hlt] at ha
      exact ih hs.2 a ha
    · rw [List.dropWhile_cons] at ha
      simp only [decide_eq_true_eq, if_neg hlt] at ha
      rcases List.mem_cons.mp ha with rfl | hmem
      · exact le_of_not_lt hlt
      · exact le_trans (le_of_not_lt hlt) (hs.1 a hmem)

/-- A nonempty suffix has the same last element as the whole list. -/
lemma getLast?_of_suffix {α : Type} {l' l : List α} (h : l' <:+ l)
    (hne : l' ≠ []) : l'.getLast? = l.getLast? := by
  obtain ⟨pre, rfl⟩ := h
  have hsome : l'.getLast?.isSome := by
    rw [List.getLast?_isSome]
    exact hne
  obtain ⟨b, hb⟩ := Option.isSome_iff_exists.mp hsome
  rw [List.getLast?_append, hb]
  rfl

/-- Step invariants of one insertion-and-trim cycle entered with a sorted
buffer whose entries are all `≤ t`: the result stays sorted, its entries
come from the old buffer or the new sample, all of them are `≥ t - w`, and
the new sample is still the tail. -/
lemma appendTrim_props (w : ℚ) (cap : ℕ) (x y : List ℚ) (t v : ℚ)
    (hs : List.Sorted (· ≤ ·) x) (hle : ∀ a ∈ x, a ≤ t) :
    List.Sorted (· ≤ ·) (appendTrim w cap x y t v).1
    ∧ (∀ a ∈ (appendTrim w cap x y t v).1, a ∈ x ++ [t])
    ∧ (∀ a ∈ (appendTrim w cap x y t v).1, t - w ≤ a)
    ∧ ((appendTrim w cap x y t v).1 ≠ [] →
        (appendTrim w cap x y t v).1.getLast? = some t) := by
  have hsx : List.Sorted (· ≤ ·) (x ++ [t]) := by
    rw [List.Sorted, List.pairwise_append]
    exact ⟨hs, List.pairwise_singleton _ _, fun a ha b hb => by
      rw [List.mem_singleton] at hb; exact hb ▸ hle a ha⟩
  have hsuf := appendTrim_fst_suffix w cap x y t v
  refine ⟨hsx.sublist hsuf.sublist, fun a ha => hsuf.sublist.mem ha, ?_, ?_⟩
  · intro a ha
    rw [appendTrim_fst] at ha
    exact mem_dropWhile_sorted hsx a (List.drop_subset _ _ ha)
  · intro hne
    rw [getLast?_of_suffix hsuf hne, List.getLast?_concat]

/-- Main fold invariant of the buffer: starting from a sorted buffer whose
entries precede every incoming timestamp and which already satisfies the
window bound, a run of insertion-and-trim cycles with non-decreasing
timestamps keeps the buffer sorted and keeps `last - first ≤ w`. -/
lemma foldAppend_props (w : ℚ) (cap : ℕ) :
    ∀ (samples : List (ℚ × ℚ)) (x y : List ℚ),
    List.Sorted (· ≤ ·) x →
    (∀ a ∈ x, ∀ p ∈ samples, a ≤ p.1) →
    List.Sorted (· ≤ ·) (samples.map Prod.fst) →
    (∀ a b, x.head? = some a → x.getLast? = some b → b - a ≤ w) →
    List.Sorted (· ≤ ·) (samples.foldl (appendStep w cap) (x, y)).1
    ∧ (∀ a b, (samples.foldl (appendStep w cap) (x, y)).1.head? = some a →
        (samples.foldl (appendStep w cap) (x, y)).1.getLast? = some b →
        b - a ≤ w) := by
  intro samples
  induction samples with
  | nil => intro x y h1 _ _ h4; exact ⟨h1, h4⟩
  | cons s rest ih =>
    intro x y h1 h2 h3 h4
    obtain ⟨t, v⟩ := s
    have hle : ∀ a ∈ x, a ≤ t := fun a ha =>
      h2 a ha (t, v) (List.mem_cons_self _ _)
    obtain ⟨p1, p2, p3, p4⟩ := appendTrim_props w cap x y t v h1 hle
    have hmapcons : ((t, v) :: rest).map Prod.fst = t :: rest.map Prod.fst := rfl
    rw [hmapcons, List.sorted_cons] at h3
    have hnext : ∀ a ∈ (appendTrim w cap x y t v).1, ∀ p ∈ rest, a ≤ p.1 := by
      intro a ha p hp
      rcases List.mem_append.mp (p2 a ha) with hax | hat
      · exact h2 a hax p (List.mem_cons_of_mem _ hp)
      · rw [List.mem_singleton] at hat
        subst hat
        exact h3.1 p.1 (List.mem_map_of_mem Prod.fst hp)
    have hwin : ∀ a b, (appendTrim w cap x y t v).1.head? = some a →
        (appendTrim w cap x y t v).1.getLast? = some b → b - a ≤ w := by
      intro a b hha hhb
      have hmem : a ∈ (appendTrim w cap x y t v).1 :=
        List.mem_of_mem_head? (by simp [hha])
      have hne : (appendTrim w cap x y t v).1 ≠ [] := by
        intro hnil
        rw [hnil] at hha
        simp at hha
      have hbt : b = t := by
        have := p4 hne
        rw [hhb] at this
        exact Option.some_inj.mp this
      have hge := p3 a hmem
      subst hbt
      linarith
    rw [List.foldl_cons]
    have hstep : appendStep w cap (x, y) (t, v) =
        ((appendTrim w cap x y t v).1, (appendTrim w cap x y t v).2) := rfl
    rw [hstep]
    exact ih _ _ p1 hnext h3.2 hwin

/-! ## Claims C1 and C8 -/

/-- C1 (amended): after every insertion-and-trim cycle the buffer length is
at most `max_points_cap`, whatever the previous state and the incoming
sample; and for every run of insertion-and-trim cycles from an empty buffer
whose appended `t_seconds` are non-decreasing, after every cycle
`last.t_seconds - first.t_seconds ≤ buffer_window_seconds`.  (The window
bound needs the monotonicity proviso: see the counterexample.) -/
theorem c1_buffer_bounds (w : ℚ) (cap : ℕ) (x y : List ℚ) (t v : ℚ)
    (samples : List (ℚ × ℚ)) (a b : ℚ) :
    (appendTrim w cap x y t v).1.length ≤ cap
    ∧ (List.Sorted (· ≤ ·) (samples.map Prod.fst) →
        (runAppends w cap samples).1.head? = some a →
        (runAppends w cap samples).1.getLast? = some b →
        b - a ≤ w) := by
  constructor
  · exact appendTrim_length_le w cap x y t v
  · intro hs hha hhb
    unfold runAppends at hha hhb
    exact (foldAppend_props w cap samples [] [] (by simp) (by simp) hs
      (by simp)).2 a b hha hhb

/-- Witness for C1 at a concrete monotone run. -/
theorem c1_buffer_bounds_witness : (1 : ℚ) - 0 ≤ 10 :=
  (c1_buffer_bounds 10 2000000 [] [] 0 0 [((0:ℚ), (5:ℚ)), ((1:ℚ), (6:ℚ))] 0 1).2
    (by with_unfolding_all decide)
    (by with_unfolding_all decide)
    (by with_unfolding_all decide)

/-- The head-trim loop stops immediately when the head is inside the
window. -/
lemma trimTime_stop {tmin hx : ℚ} (h : ¬ hx < tmin) (tx y : List ℚ) :
    trimTime tmin (hx :: tx) y = (hx :: tx, y) := by
  simp [trimTime, h]

/-- A cycle that appends `0` to the buffer `[0, -100] ++ 0^k` under the
window there is no head trimming and, below the cap, no cap trimming. -/
lemma c1ce_step (k : ℕ) (hk : k + 3 ≤ 2000000) :
    appendStep 10 2000000
      ((0:ℚ) :: (-100:ℚ) :: List.replicate k (0:ℚ),
       (0:ℚ) :: (0:ℚ) :: List.replicate k (0:ℚ)) ((0:ℚ), (0:ℚ))
    = ((0:ℚ) :: (-100:ℚ) :: List.replicate (k+1) (0:ℚ),
       (0:ℚ) :: (0:ℚ) :: List.replicate (k+1) (0:ℚ)) := by
  unfold appendStep appendTrim
  dsimp only
  have hlt : ¬((0:ℚ) < 0 - 10) := by norm_num
  have hx1 : ((0:ℚ) :: (-100:ℚ) :: List.replicate k (0:ℚ)) ++ [0]
      = (0:ℚ) :: (-100:ℚ) :: List.replicate (k+1) (0:ℚ) := by
    rw [List.cons_append, List.cons_append, ← List.replicate_succ']
  have hy1 : ((0:ℚ) :: (0:ℚ) :: List.replicate k (0:ℚ)) ++ [0]
      = (0:ℚ) :: (0:ℚ) :: List.replicate (k+1) (0:ℚ) := by
    rw [List.cons_append, List.cons_append, ← List.replicate_succ']
  rw [hx1, hy1, trimTime_stop hlt]
  have hlen : ((0:ℚ) :: (-100:ℚ) :: List.replicate (k+1) (0:ℚ)).length = k + 3 := by
    simp
  unfold trimCap
  rw [hlen]
  have : ¬(2000000 < k + 3) := by omega
  simp [this]

/-- Folding `m` further `0`-appends onto `[0, -100] ++ 0^k` while staying
below the cap. -/
lemma c1ce_fold : ∀ (m k : ℕ), k + 2 + m ≤ 2000000 →
    List.foldl (appendStep 10 2000000)
      ((0:ℚ) :: (-100:ℚ) :: List.replicate k (0:ℚ),
       (0:ℚ) :: (0:ℚ) :: List.replicate k (0:ℚ))
      (List.replicate m ((0:ℚ), (0:ℚ)))
    = ((0:ℚ) :: (-100:ℚ) :: List.replicate (k+m) (0:ℚ),
       (0:ℚ) :: (0:ℚ) :: List.replicate (k+m) (0:ℚ)) := by
  intro m
  induction m with
  | zero => intro k _; simp
  | succ n ih =>
    intro k hk
    rw [List.replicate_succ, List.foldl_cons, c1ce_step k (by omega),
      ih (k+1) (by omega)]
    have : k + 1 + n = k + (n + 1) := by omega
    rw [this]

/-- The hard-cap trim on a deque one element over the cap pops exactly the
head. -/
lemma trimCap_of_length_eq (cap : ℕ) (a b : ℚ) (x y : List ℚ)
    (hx : x.length = cap) :
    trimCap cap (a :: x) (b :: y) = (x, y) := by
  unfold trimCap
  have h1 : (a :: x).length = cap + 1 := by rw [List.length_cons, hx]
  rw [h1]
  have hc : cap < cap + 1 := Nat.lt_succ_self cap
  rw [if_pos hc]
  have hd : cap + 1 - cap = 1 := by omega
  rw [hd, List.drop_succ_cons, List.drop_zero, List.drop_succ_cons,
    List.drop_zero]

/-- The overflowing cycle: at the cap, appending `0` evicts the in-window
head `0` and exposes the out-of-window `-100` behind it. -/
lemma c1ce_last :
    appendStep 10 2000000
      ((0:ℚ) :: (-100:ℚ) :: List.replicate 1999998 (0:ℚ),
       (0:ℚ) :: (0:ℚ) :: List.replicate 1999998 (0:ℚ)) ((0:ℚ), (0:ℚ))
    = ((-100:ℚ) :: List.replicate 1999999 (0:ℚ),
       (0:ℚ) :: List.replicate 1999999 (0:ℚ)) := by
  have e : (1999999 : ℕ) = 1999998 + 1 := by norm_num
  rw [e]
  unfold appendStep appendTrim
  dsimp only
  have hlt : ¬((0:ℚ) < 0 - 10) := by norm_num
  have hx1 : ((0:ℚ) :: (-100:ℚ) :: List.replicate 1999998 (0:ℚ)) ++ [0]
      = (0:ℚ) :: (-100:ℚ) :: List.replicate (1999998 + 1) (0:ℚ) := by
    rw [List.cons_append, List.cons_append, ← List.replicate_succ']
  have hy1 : ((0:ℚ) :: (0:ℚ) :: List.replicate 1999998 (0:ℚ)) ++ [0]
      = (0:ℚ) :: (0:ℚ) :: List.replicate (1999998 + 1) (0:ℚ) := by
    rw [List.cons_append, List.cons_append, ← List.replicate_succ']
  rewrite [hx1, hy1, trimTime_stop hlt]
  exact trimCap_of_length_eq 2000000 0 0 _ _
    (by rewrite [List.length_cons, List.length_replicate]; norm_num)

/-- C1, counterexample to the claim as stated: a reachable sequence of
insertion-and-trim cycles (window 10 s, the source's cap of 2 000 000)
after which the buffer holds ≥ 2 points but
`last.t_seconds - first.t_seconds = 100 > 10`. -/
theorem c1_window_bound_counterexample :
    (runAppends 10 2000000 (((0:ℚ), (0:ℚ)) :: ((-100:ℚ), (0:ℚ)) ::
        List.replicate 1999999 ((0:ℚ), (0:ℚ)))).1.head? = some (-100)
    ∧ (runAppends 10 2000000 (((0:ℚ), (0:ℚ)) :: ((-100:ℚ), (0:ℚ)) ::
        List.replicate 1999999 ((0:ℚ), (0:ℚ)))).1.getLast? = some 0
    ∧ 2 ≤ (runAppends 10 2000000 (((0:ℚ), (0:ℚ)) :: ((-100:ℚ), (0:ℚ)) ::
        List.replicate 1999999 ((0:ℚ), (0:ℚ)))).1.length
    ∧ ¬((0 : ℚ) - (-100) ≤ 10) := by
  have e : (1999999 : ℕ) = 1999998 + 1 := by norm_num
  have h2 : List.foldl (appendStep 10 2000000) ([], [])
      [((0:ℚ), (0:ℚ)), ((-100:ℚ), (0:ℚ))]
      = ((0:ℚ) :: (-100:ℚ) :: List.replicate 0 (0:ℚ),
         (0:ℚ) :: (0:ℚ) :: List.replicate 0 (0:ℚ)) := by
    with_unfolding_all decide
  have hsplit : List.replicate 1999999 ((0:ℚ), (0:ℚ))
      = List.replicate 1999998 ((0:ℚ), (0:ℚ)) ++ [((0:ℚ), (0:ℚ))] := by
    rw [e]
    exact List.replicate_succ' 1999998 _
  have hrun : (runAppends 10 2000000 (((0:ℚ), (0:ℚ)) :: ((-100:ℚ), (0:ℚ)) ::
      List.replicate 1999999 ((0:ℚ), (0:ℚ)))).1
      = (-100:ℚ) :: List.replicate 1999999 (0:ℚ) := by
    unfold runAppends
    rewrite [show (((0:ℚ), (0:ℚ)) :: ((-100:ℚ), (0:ℚ)) ::
        List.replicate 1999999 ((0:ℚ), (0:ℚ)))
        = [((0:ℚ), (0:ℚ)), ((-100:ℚ), (0:ℚ))] ++
          List.replicate 1999999 ((0:ℚ), (0:ℚ)) from rfl,
      List.foldl_append, h2, hsplit, List.foldl_append,
      c1ce_fold 1999998 0 (by omega), List.foldl_cons, List.foldl_nil]
    rewrite [show (0:ℕ) + 1999998 = 1999998 from by norm_num, c1ce_last]
    rfl
  refine ⟨?_, ?_, ?_, by norm_num⟩
  · rewrite [hrun]; rfl
  · rewrite [hrun, show (-100:ℚ) :: List.replicate 1999999 (0:ℚ)
      = [(-100:ℚ)] ++ List.replicate 1999999 (0:ℚ) from rfl,
      List.getLast?_append, List.getLast?_replicate]
    rfl
  · rewrite [hrun, List.length_cons, List.length_replicate]
    norm_num

/-- C8 (amended): the buffer's `t_seconds` values are non-decreasing after
every insertion-and-trim cycle, provided the appended `t_seconds` are
themselves non-decreasing (equivalently, the device timestamps within the
session are non-decreasing).  With arbitrary device timestamps the property
fails: see the counterexample. -/
theorem c8_monotone_buffer (w : ℚ) (cap : ℕ) (samples : List (ℚ × ℚ))
    (hs : List.Sorted (· ≤ ·) (samples.map Prod.fst)) :
    List.Sorted (· ≤ ·) (runAppends w cap samples).1 := by
  unfold runAppends
  exact (foldAppend_props w cap samples [] [] (by simp) (by simp) hs (by simp)).1

/-- Witness for C8 at a concrete monotone run. -/
theorem c8_monotone_buffer_witness :
    List.Sorted (· ≤ ·) (runAppends 10 2000000
      [((0:ℚ), (0:ℚ)), ((1:ℚ), (0:ℚ))]).1 :=
  c8_monotone_buffer 10 2000000 [((0:ℚ), (0:ℚ)), ((1:ℚ), (0:ℚ))]
    (by with_unfolding_all decide)

/-- C8, counterexample to the claim as stated: two structured lines whose
device timestamps go backwards leave the real pipeline's buffer
non-monotonic (`x = [0, -1]`). -/
theorem c8_counterexample :
    (poll_serial initState
      "2000000,30000,30000,1650000,2500000\n1000000,30000,30000,1650000,2500000\n".toList).sess.x
      = [0, -1]
    ∧ ¬ List.Sorted (· ≤ ·) (poll_serial initState
      "2000000,30000,30000,1650000,2500000\n1000000,30000,30000,1650000,2500000\n".toList).sess.x := by
  with_unfolding_all decide

/-! ## Lemmas: Frame Parser -/

/-- Membership form of `List.contains`: it agrees with membership. -/
lemma contains_eq_true_iff (l : List Char) (c : Char) :
    l.contains c = true ↔ c ∈ l := by
  simp [List.contains_iff_exists_mem_beq]

/-- A non-whitespace character survives `strip()`. -/
lemma mem_stripChars {c : Char} {l : List Char}
    (hw : c.isWhitespace = false) (hc : c ∈ l) : c ∈ stripChars l := by
  have step : ∀ p : List Char, c ∈ p → c ∈ p.dropWhile Char.isWhitespace := by
    intro p hp
    rw [← List.takeWhile_append_dropWhile Char.isWhitespace p] at hp
    rcases List.mem_append.mp hp with h | h
    · have := List.mem_takeWhile_imp h
      rw [hw] at this
      exact Bool.noConfusion this
    · exact h
  unfold stripChars
  rw [List.mem_reverse]
  exact step _ (by rw [List.mem_reverse]; exact step _ hc)

/-- A string accepted by the signed-digit parser consists only of signs and
digits. -/
lemma signedDigits?_chars {l : List Char} {k : ℤ}
    (h : signedDigits? l = some k) :
    ∀ c ∈ l, c = '+' ∨ c = '-' ∨ c.isDigit = true := by
  cases l with
  | nil => exact absurd h (by simp [signedDigits?])
  | cons c0 cs =>
    simp only [signedDigits?] at h
    intro c hc
    by_cases h0 : c0 = '+'
    · rw [if_pos h0] at h
      split at h
      · rcases List.mem_cons.mp hc with rfl | hmem
        · exact Or.inl h0
        · rename_i hcond
          exact Or.inr (Or.inr (List.all_eq_true.mp hcond.2 c hmem))
      · exact Option.noConfusion h
    · rw [if_neg h0] at h
      by_cases h1 : c0 = '-'
      · rw [if_pos h1] at h
        split at h
        · rcases List.mem_cons.mp hc with rfl | hmem
          · exact Or.inr (Or.inl h1)
          · rename_i hcond
            exact Or.inr (Or.inr (List.all_eq_true.mp hcond.2 c hmem))
        · exact Option.noConfusion h
      · rw [if_neg h1] at h
        split at h
        · rename_i hcond
          exact Or.inr (Or.inr (List.all_eq_true.mp hcond c hc))
        · exact Option.noConfusion h

/-- A field accepted by `int()` contains no exponent letter. -/
lemma pyInt?_no_exp {p : List Char} {k : ℤ} (h : pyInt? p = some k) :
    'e' ∉ p ∧ 'E' ∉ p := by
  unfold pyInt? at h
  constructor
  · intro hmem
    rcases signedDigits?_chars h 'e' (mem_stripChars (by decide) hmem) with
      h' | h' | h' <;> exact absurd h' (by decide)
  · intro hmem
    rcases signedDigits?_chars h 'E' (mem_stripChars (by decide) hmem) with
      h' | h' | h' <;> exact absurd h' (by decide)

/-- C2.  `parse` on `"1000,512,512000,1650000,2500000"` selects the
scaled-integer encoding (fields 3 and 4 pass `_is_intlike_big`) and yields
`avg = 512.0`, `v_adc = 1.65`, `v_sensor = 2.5`; `parse` on
`"1000,512,512.0,1.65,2.50"` selects the float encoding (field 3 fails
`_is_intlike_big`) and yields the same `t_us`, `raw`, `avg`, `v_adc`,
`v_sensor`; and for every line of ≥ 5 comma-separated fields the encoding
choice is exactly: scaled-integer iff fields 3 and 4 both contain no
decimal point and parse as integers of absolute value > 20000, float
otherwise. -/
theorem c2_encoding_selection :
    (parse_line "1000,512,512000,1650000,2500000".toList
        = some (.structured ⟨1000, 512, 512, 33/20, 5/2, 5/2⟩)
      ∧ isIntlikeBig "1650000".toList = true
      ∧ isIntlikeBig "2500000".toList = true)
    ∧ (parse_line "1000,512,512.0,1.65,2.50".toList
        = some (.structured ⟨1000, 512, 512, 33/20, 5/2, 5/2⟩)
      ∧ isIntlikeBig "1.65".toList = false)
    ∧ (∀ p : List Char, isIntlikeBig p = true ↔
        ('.' ∉ p ∧ ∃ k : ℤ, pyInt? p = some k ∧ 20000 < k.natAbs))
    ∧ (∀ (s p0 p1 p2 p3 p4 : List Char) (rest : List (List Char)),
        stripChars s ≠ [] → isHeaderLine (stripChars s) = false →
        splitComma (stripChars s) = p0 :: p1 :: p2 :: p3 :: p4 :: rest →
        ((isIntlikeBig p3 && isIntlikeBig p4) = true →
          parse_line s = scaledDecode p0 p1 p2 p3 p4)
        ∧ ((isIntlikeBig p3 && isIntlikeBig p4) = false →
          parse_line s = floatDecode p0 p1 p2 p3 p4)) := by
  refine ⟨by with_unfolding_all decide, by with_unfolding_all decide, ?_, ?_⟩
  · intro p
    constructor
    · intro h
      unfold isIntlikeBig at h
      split at h
      · exact Bool.noConfusion h
      · rename_i hnc
        rw [Bool.not_eq_true, Bool.or_eq_false_iff, Bool.or_eq_false_iff] at hnc
        have hdot : '.' ∉ p := by
          intro hm
          rw [(contains_eq_true_iff p '.').mpr hm] at hnc
          exact Bool.noConfusion hnc.1.1
        refine ⟨hdot, ?_⟩
        cases hk : pyInt? p with
        | none => rw [hk] at h; exact Bool.noConfusion h
        | some v =>
          rw [hk] at h
          exact ⟨v, rfl, of_decide_eq_true h⟩
    · rintro ⟨hdot, k, hk, hgt⟩
      obtain ⟨he, hE⟩ := pyInt?_no_exp hk
      unfold isIntlikeBig
      have hc1 : p.contains '.' = false := by
        rw [← Bool.not_eq_true]
        intro hx
        exact hdot ((contains_eq_true_iff p '.').mp hx)
      have hc2 : p.contains 'e' = false := by
        rw [← Bool.not_eq_true]
        intro hx
        exact he ((contains_eq_true_iff p 'e').mp hx)
      have hc3 : p.contains 'E' = false := by
        rw [← Bool.not_eq_true]
        intro hx
        exact hE ((contains_eq_true_iff p 'E').mp hx)
      rw [hc1, hc2, hc3]
      simp only [Bool.or_self, Bool.or_false, if_neg Bool.false_ne_true, hk]
      exact decide_eq_true hgt
  · intro s p0 p1 p2 p3 p4 rest hne hhd hsplit
    have hbase : parse_line s =
        if isIntlikeBig p3 && isIntlikeBig p4 then scaledDecode p0 p1 p2 p3 p4
        else floatDecode p0 p1 p2 p3 p4 := by
      unfold parse_line
      rw [if_neg hne, if_neg (by rw [hhd]; exact Bool.false_ne_true), hsplit]
    constructor
    · intro hsel
      rw [hbase, if_pos hsel]
    · intro hsel
      rw [hbase, if_neg (by rw [hsel]; exact Bool.false_ne_true)]

/-- Witness for C2's universally
quantified parts at concrete fields and a concrete line. -/
theorem c2_encoding_selection_witness :
    (isIntlikeBig "30001".toList = true ↔
      ('.' ∉ "30001".toList ∧ ∃ k : ℤ, pyInt? "30001".toList = some k ∧
        20000 < k.natAbs))
    ∧ parse_line "7,8,9,x,30001".toList
        = floatDecode "7".toList "8".toList "9".toList "x".toList
            "30001".toList :=
  ⟨c2_encoding_selection.2.2.1 "30001".toList,
   (c2_encoding_selection.2.2.2 "7,8,9,x,30001".toList "7".toList "8".toList
      "9".toList "x".toList "30001".toList []
      (by with_unfolding_all decide) (by with_unfolding_all decide)
      (by with_unfolding_all decide)).2 (by with_unfolding_all decide)⟩

/-- The scaled-integer branch never produces the fallback shape. -/
lemma scaledDecode_ne_val (p0 p1 p2 p3 p4 : List Char) (v : ℚ) :
    scaledDecode p0 p1 p2 p3 p4 ≠ some (.val v) := by
  unfold scaledDecode
  cases pyInt? p0 <;> cases pyInt? p1 <;> cases pyInt? p2 <;> cases pyInt? p3 <;>
    cases pyInt? p4 <;> simp

/-- The float branch never produces the fallback shape. -/
lemma floatDecode_ne_val (p0 p1 p2 p3 p4 : List Char) (v : ℚ) :
    floatDecode p0 p1 p2 p3 p4 ≠ some (.val v) := by
  unfold floatDecode
  cases pyInt? p0 <;> cases pyFloat? p1 <;> cases pyFloat? p2 <;>
    cases pyFloat? p3 <;> cases pyFloat? p4 <;> simp

/-- Any failing field makes the scaled-integer branch discard the line. -/
lemma scaledDecode_none (p0 p1 p2 p3 p4 : List Char)
    (h : (pyInt? p0).isNone ∨ (pyInt? p1).isNone ∨ (pyInt? p2).isNone) :
    scaledDecode p0 p1 p2 p3 p4 = none := by
  unfold scaledDecode
  cases h0 : pyInt? p0 <;> cases h1 : pyInt? p1 <;> cases h2 : pyInt? p2 <;>
    cases pyInt? p3 <;> cases pyInt? p4 <;>
    simp_all

/-- Any failing field makes the float branch discard the line. -/
lemma floatDecode_none (p0 p1 p2 p3 p4 : List Char)
    (h : (pyInt? p0).isNone ∨ (pyFloat? p1).isNone ∨ (pyFloat? p2).isNone
      ∨ (pyFloat? p3).isNone ∨ (pyFloat? p4).isNone) :
    floatDecode p0 p1 p2 p3 p4 = none := by
  unfold floatDecode
  cases h0 : pyInt? p0 <;> cases h1 : pyFloat? p1 <;> cases h2 : pyFloat? p2 <;>
    cases h3 : pyFloat? p3 <;> cases h4 : pyFloat? p4 <;>
    simp_all

/-- C4.  For every line splitting into ≥ 5 comma-separated fields, a field
that fails to parse under the selected encoding yields `None` and the
single-scalar fallback is never attempted (no `{"val"}` result); the
fallback is reached only for lines with fewer than 5 fields. -/
theorem c4_fallback_only_below_5_fields (s : List Char) :
    (∀ v : ℚ, parse_line s = some (.val v) →
      (splitComma (stripChars s)).length < 5)
    ∧ (∀ (p0 p1 p2 p3 p4 : List Char) (rest : List (List Char)),
        splitComma (stripChars s) = p0 :: p1 :: p2 :: p3 :: p4 :: rest →
        (∀ v : ℚ, parse_line s ≠ some (.val v))
        ∧ ((isIntlikeBig p3 && isIntlikeBig p4) = true →
            ((pyInt? p0).isNone ∨ (pyInt? p1).isNone ∨ (pyInt? p2).isNone) →
            parse_line s = none)
        ∧ ((isIntlikeBig p3 && isIntlikeBig p4) = false →
            ((pyInt? p0).isNone ∨ (pyFloat? p1).isNone ∨ (pyFloat? p2).isNone
              ∨ (pyFloat? p3).isNone ∨ (pyFloat? p4).isNone) →
            parse_line s = none)) := by
  by_cases hne : stripChars s = []
  · constructor
    · intro v hv
      unfold parse_line at hv
      rw [if_pos hne] at hv
      exact Option.noConfusion hv
    · intro p0 p1 p2 p3 p4 rest hsplit
      rw [hne] at hsplit
      exact absurd hsplit (by simp [splitComma])
  · by_cases hhd : isHeaderLine (stripChars s) = true
    · have hnone : parse_line s = none := by
        unfold parse_line
        rw [if_neg hne, if_pos hhd]
      constructor
      · intro v hv
        rw [hnone] at hv
        exact Option.noConfusion hv
      · intro p0 p1 p2 p3 p4 rest _
        exact ⟨fun v hv => by rw [hnone] at hv; exact Option.noConfusion hv,
          fun _ _ => hnone, fun _ _ => hnone⟩
    · constructor
      · intro v hv
        unfold parse_line at hv
        rw [if_neg hne, if_neg hhd] at hv
        rcases hsp : splitComma (stripChars s) with
          _ | ⟨p0, _ | ⟨p1, _ | ⟨p2, _ | ⟨p3, _ | ⟨p4, rest⟩⟩⟩⟩⟩ <;>
          rw [hsp] at hv
        · simp [hsp]
        · simp [hsp]
        · simp [hsp]
        · simp [hsp]
        · simp [hsp]
        · exfalso
          dsimp only at hv
          by_cases hsel : (isIntlikeBig p3 && isIntlikeBig p4) = true
          · rw [if_pos hsel] at hv
            exact scaledDecode_ne_val p0 p1 p2 p3 p4 v hv
          · rw [if_neg hsel] at hv
            exact floatDecode_ne_val p0 p1 p2 p3 p4 v hv
      · intro p0 p1 p2 p3 p4 rest hsplit
        have hbase : parse_line s =
            if isIntlikeBig p3 && isIntlikeBig p4 then
              scaledDecode p0 p1 p2 p3 p4
            else floatDecode p0 p1 p2 p3 p4 := by
          unfold parse_line
          rw [if_neg hne, if_neg hhd, hsplit]
        refine ⟨?_, ?_, ?_⟩
        · intro v hv
          rw [hbase] at hv
          by_cases hsel : (isIntlikeBig p3 && isIntlikeBig p4) = true
          · rw [if_pos hsel] at hv
            exact scaledDecode_ne_val p0 p1 p2 p3 p4 v hv
          · rw [if_neg hsel] at hv
            exact floatDecode_ne_val p0 p1 p2 p3 p4 v hv
        · intro hsel hfail
          rw [hbase, if_pos hsel]
          exact scaledDecode_none p0 p1 p2 p3 p4 hfail
        · intro hsel hfail
          rw [hbase, if_neg (by rw [hsel]; exact Bool.false_ne_true)]
          exact floatDecode_none p0 p1 p2 p3 p4 hfail

/-- Witness for C4 at a concrete five-field line with one bad field. -/
theorem c4_fallback_only_below_5_fields_witness :
    parse_line "1,2,3,x,5".toList = none :=
  ((c4_fallback_only_below_5_fields "1,2,3,x,5".toList).2 "1".toList
      "2".toList "3".toList "x".toList "5".toList []
      (by with_unfolding_all decide)).2.2
    (by with_unfolding_all decide)
    (Or.inr (Or.inr (Or.inr (Or.inl (by with_unfolding_all decide)))))


/-- Structured samples from the scaled-integer branch carry
`psi = psiOf v_sensor`. -/
lemma scaledDecode_psi (p0 p1 p2 p3 p4 : List Char) (st : Structured)
    (h : scaledDecode p0 p1 p2 p3 p4 = some (.structured st)) :
    st.psi = psiOf st.v_sensor := by
  unfold scaledDecode at h
  revert h
  cases pyInt? p0 <;> cases pyInt? p1 <;> cases pyInt? p2 <;>
    cases pyInt? p3 <;> cases pyInt? p4 <;> intro h <;> dsimp only at h <;>
    first
      | exact Option.noConfusion h
      | (rw [Option.some_inj, ParsedSample.structured.injEq] at h
         subst h
         rfl)

/-- Structured samples from the float branch carry `psi = psiOf v_sensor`. -/
lemma floatDecode_psi (p0 p1 p2 p3 p4 : List Char) (st : Structured)
    (h : floatDecode p0 p1 p2 p3 p4 = some (.structured st)) :
    st.psi = psiOf st.v_sensor := by
  unfold floatDecode at h
  revert h
  cases pyInt? p0 <;> cases pyFloat? p1 <;> cases pyFloat? p2 <;>
    cases pyFloat? p3 <;> cases pyFloat? p4 <;> intro h <;> dsimp only at h <;>
    first
      | exact Option.noConfusion h
      | (rw [Option.some_inj, ParsedSample.structured.injEq] at h
         subst h
         rfl)

/-- C6.  The derived pressure equals
`full_scale_psi * ((v_sensor / supply_volts) - 0.10) / 0.80` clamped to
`[0, full_scale_psi]`; the derivation is total on the parsed fields, always
in range, and every structured sample produced by `parse` carries exactly
this value. -/
theorem c6_psi_derivation :
    (∀ vs : ℚ,
      psiOf vs = max 0 (min FS_PSI (FS_PSI * ((vs / VS_VOLTS) - 1/10) / (8/10)))
      ∧ 0 ≤ psiOf vs ∧ psiOf vs ≤ FS_PSI)
    ∧ (∀ (s : List Char) (st : Structured),
        parse_line s = some (.structured st) → st.psi = psiOf st.v_sensor) := by
  constructor
  · intro vs
    unfold psiOf
    dsimp only
    by_cases h1 : FS_PSI * ((vs / VS_VOLTS) - 1/10) / (8/10) < 0
    · rw [if_pos h1]
      have hFS : ¬ (FS_PSI < (0:ℚ)) := by norm_num [FS_PSI]
      rw [if_neg hFS]
      have hmin : min FS_PSI (FS_PSI * ((vs / VS_VOLTS) - 1/10) / (8/10)) ≤ 0 :=
        le_trans (min_le_right _ _) (le_of_lt h1)
      exact ⟨(max_eq_left hmin).symm, le_refl 0, by norm_num [FS_PSI]⟩
    · rw [if_neg h1]
      push_neg at h1
      by_cases h2 : FS_PSI < FS_PSI * ((vs / VS_VOLTS) - 1/10) / (8/10)
      · rw [if_pos h2]
        rw [min_eq_left (le_of_lt h2), max_eq_right (by norm_num [FS_PSI])]
        exact ⟨rfl, by norm_num [FS_PSI], le_refl _⟩
      · rw [if_neg h2]
        push_neg at h2
        rw [min_eq_right h2, max_eq_right h1]
        exact ⟨rfl, h1, h2⟩
  · intro s st h
    unfold parse_line at h
    by_cases hne : stripChars s = []
    · rw [if_pos hne] at h
      exact Option.noConfusion h
    · rw [if_neg hne] at h
      by_cases hhd : isHeaderLine (stripChars s) = true
      · rw [if_pos hhd] at h
        exact Option.noConfusion h
      · rw [if_neg hhd] at h
        rcases hsp : splitComma (stripChars s) with
          _ | ⟨p0, _ | ⟨p1, _ | ⟨p2, _ | ⟨p3, _ | ⟨p4, rest⟩⟩⟩⟩⟩ <;>
          rw [hsp] at h <;> dsimp only at h
        · cases hf : pyFloat? (stripChars s) <;> rw [hf] at h <;> simp at h
        · cases hf : pyFloat? (stripChars s) <;> rw [hf] at h <;> simp at h
        · cases hf : pyFloat? (stripChars s) <;> rw [hf] at h <;> simp at h
        · cases hf : pyFloat? (stripChars s) <;> rw [hf] at h <;> simp at h
        · cases hf : pyFloat? (stripChars s) <;> rw [hf] at h <;> simp at h
        · by_cases hsel : (isIntlikeBig p3 && isIntlikeBig p4) = true
          · rw [if_pos hsel] at h
            exact scaledDecode_psi p0 p1 p2 p3 p4 st h
          · rw [if_neg hsel] at h
            exact floatDecode_psi p0 p1 p2 p3 p4 st h

/-- Witness for C6 at the scaled-integer scenario line. -/
theorem c6_psi_derivation_witness :
    (⟨1000, 512, 512, 33/20, 5/2, 5/2⟩ : Structured).psi
      = psiOf (⟨1000, 512, 512, 33/20, 5/2, 5/2⟩ : Structured).v_sensor :=
  c6_psi_derivation.2 "1000,512,512000,1650000,2500000".toList
    ⟨1000, 512, 512, 33/20, 5/2, 5/2⟩ (by with_unfolding_all decide)


/-- Python `l[::k]` is a subsequence of `l`. -/
lemma sliceStep_sublist : ∀ (l : List α) (k : ℕ),
    (sliceStep l k).Sublist l := by
  intro l k
  generalize hn : l.length = n
  induction n using Nat.strong_induction_on generalizing l with
  | _ n ih =>
    cases l with
    | nil => simp [sliceStep]
    | cons a t =>
      rw [show sliceStep (a :: t) k = a :: sliceStep (t.drop (k-1)) k from by
        simp [sliceStep]]
      refine List.Sublist.cons₂ a ?_
      rw [List.length_cons] at hn
      have hlt : (t.drop (k-1)).length < n := by
        rw [List.length_drop]
        omega
      exact (ih (t.drop (k-1)).length hlt _ rfl).trans (List.drop_sublist _ _)

/-- C7.  `update_ui` never mutates the ingestion state; when drawing (buffer
nonempty, display not paused) it draws exactly every `stride`-th element of
the snapshot starting at index 0, with effective stride
`max(stride_floor, n / max_points)` when `n > max_points` and `stride_floor`
otherwise; the drawn series is a subsequence of the snapshot (order
preserved) of length at most `max(max_points, n)`. -/
theorem c7_decimation (a : AppState) :
    ((update_ui a).sess = a.sess ∧ (update_ui a).rx = a.rx)
    ∧ (a.sess.x ≠ [] → a.pause = false →
        ((update_ui a).curveX = sliceStep a.sess.x
            (if max 200 a.maxpoints_spin < a.sess.x.length
             then max (max 1 a.ds_spin) (a.sess.x.length / max 200 a.maxpoints_spin)
             else max 1 a.ds_spin)
        ∧ (update_ui a).curveY = sliceStep a.sess.y
            (if max 200 a.maxpoints_spin < a.sess.x.length
             then max (max 1 a.ds_spin) (a.sess.x.length / max 200 a.maxpoints_spin)
             else max 1 a.ds_spin)
        ∧ ((update_ui a).curveX).Sublist a.sess.x
        ∧ ((update_ui a).curveY).Sublist a.sess.y
        ∧ ((update_ui a).curveX).length
            ≤ max (max 200 a.maxpoints_spin) a.sess.x.length)) := by
  constructor
  · unfold update_ui
    split <;> exact ⟨rfl, rfl⟩
  · intro hx hp
    have hcond : a.sess.x ≠ [] ∧ a.pause = false := ⟨hx, hp⟩
    unfold update_ui
    rw [if_pos hcond]
    refine ⟨rfl, rfl, sliceStep_sublist _ _, sliceStep_sublist _ _, ?_⟩
    exact le_trans (sliceStep_sublist _ _).length_le (le_max_right _ _)

/-- Witness for C7 at a concrete three-point buffer. -/
theorem c7_decimation_witness :
    (update_ui { initState with
        sess := { initState.sess with x := [1, 2, 3], y := [4, 5, 6] } }).curveX
      = sliceStep [1, 2, 3]
          (if max 200 { initState with
              sess := { initState.sess with x := [1, 2, 3], y := [4, 5, 6] }
            }.maxpoints_spin < ([1, 2, 3] : List ℚ).length
           then max (max 1 { initState with
              sess := { initState.sess with x := [1, 2, 3], y := [4, 5, 6] }
            }.ds_spin) (([1, 2, 3] : List ℚ).length / max 200 { initState with
              sess := { initState.sess with x := [1, 2, 3], y := [4, 5, 6] }
            }.maxpoints_spin)
           else max 1 { initState with
              sess := { initState.sess with x := [1, 2, 3], y := [4, 5, 6] }
            }.ds_spin) :=
  ((c7_decimation { initState with
      sess := { initState.sess with x := [1, 2, 3], y := [4, 5, 6] } }).2
    (by with_unfolding_all decide) rfl).1

/-- C9.  A poll cycle's entire ingestion result — raw sink rows, processed
sink rows, buffer contents, carry-over bytes, time origin — is independent
of the pause-display flag, and `update_ui` (paused or not) never touches
the ingestion state; with the pause flag set it is the identity. -/
theorem c9_pause_only_suspends_drawing (a : AppState) (chunk : List Char)
    (b1 b2 : Bool) :
    (poll_serial { a with pause := b1 } chunk).sess
      = (poll_serial { a with pause := b2 } chunk).sess
    ∧ (poll_serial { a with pause := b1 } chunk).rx
      = (poll_serial { a with pause := b2 } chunk).rx
    ∧ (update_ui a).sess = a.sess
    ∧ (update_ui a).rx = a.rx
    ∧ (a.pause = true → update_ui a = a) := by
  refine ⟨?_, ?_, ?_, ?_, ?_⟩
  · unfold poll_serial
    split <;> rfl
  · unfold poll_serial
    split <;> rfl
  · unfold update_ui
    split <;> rfl
  · unfold update_ui
    split <;> rfl
  · intro hp
    unfold update_ui
    rw [if_neg]
    intro hcond
    rw [hp] at hcond
    exact Bool.noConfusion hcond.2

/-- Witness for C9: with the pause box checked, a UI refresh changes
nothing. -/
theorem c9_pause_only_suspends_drawing_witness :
    update_ui { initState with pause := true } = { initState with pause := true } :=
  (c9_pause_only_suspends_drawing { initState with pause := true } [] true
    true).2.2.2.2 rfl


/-- C5.  Divergence on fallback scalar lines: the downsampled variant's
`poll_serial` accepts a fallback `{"val": 3.14}` sample into the buffer with
a host-clock-relative timestamp (`t0` from the first host-clock read,
`t_seconds = (host_clock_us - t0)/1e6`), but the fast variant's
`poll_serial` reads `parsed['t_us']` on the same sample, raising `KeyError`:
the raw row is still written, no processed row is written, nothing is
appended to the buffer, `t0` stays unset, and the cycle aborts with the
error status. -/
theorem c5_fallback_host_clock_divergence :
    parse_line "3.14".toList = some (.val (157/50))
    ∧ (poll_serial { initState with sess := { initState.sess with
          logging_raw := true, logging_proc := true } }
        "3.14\n".toList).sess.x = []
    ∧ (poll_serial { initState with sess := { initState.sess with
          logging_raw := true, logging_proc := true } }
        "3.14\n".toList).sess.y = []
    ∧ (poll_serial { initState with sess := { initState.sess with
          logging_raw := true, logging_proc := true } }
        "3.14\n".toList).sess.t0_us = none
    ∧ (poll_serial { initState with sess := { initState.sess with
          logging_raw := true, logging_proc := true } }
        "3.14\n".toList).sess.errored = true
    ∧ (poll_serial { initState with sess := { initState.sess with
          logging_raw := true, logging_proc := true } }
        "3.14\n".toList).sess.rawLog = ["3.14".toList]
    ∧ (poll_serial { initState with sess := { initState.sess with
          logging_raw := true, logging_proc := true } }
        "3.14\n".toList).sess.procLog = []
    ∧ DS.parse_line "3.14".toList = some (.val (157/50))
    ∧ DS.processLine DS.freshSession "3.14".toList 7000000 7000250
        = { DS.freshSession with
            t0_us := some 7000000, x := [1/4000], y := [157/50] }
    ∧ (1/4000 : ℚ) = ((7000250 : ℚ) - (7000000 : ℚ)) / 1000000 := by
  refine ⟨by with_unfolding_all decide, by with_unfolding_all decide,
    by with_unfolding_all decide, by with_unfolding_all decide,
    by with_unfolding_all decide, by with_unfolding_all decide,
    by with_unfolding_all decide, by with_unfolding_all decide, ?_,
    by norm_num⟩
  have hp : DS.parse_line "3.14".toList = some (.val (157/50)) := by
    with_unfolding_all decide
  unfold DS.processLine
  rw [hp]
  have ht : ((((7000250 : ℤ) : ℚ)) - (((7000000 : ℤ) : ℚ))) / 1000000
      = 1/4000 := by norm_num
  dsimp only [DS.freshSession, Option.getD]
  rw [ht]
  unfold appendTrim
  dsimp only [List.nil_append]
  rw [trimTime_stop (by norm_num)]
  unfold trimCap
  rw [if_neg (by norm_num)]

/-! ## Lemmas: deque length pairing (claim C10) -/

/-- The time trim pops from both deques together. -/
lemma trimTime_length_eq (tmin : ℚ) : ∀ (x y : List ℚ),
    x.length = y.length →
    (trimTime tmin x y).1.length = (trimTime tmin x y).2.length := by
  intro x
  induction x with
  | nil => intro y h; simpa [trimTime] using h
  | cons hx tx ih =>
    intro y h
    cases y with
    | nil => exact absurd h (by simp)
    | cons hy ty =>
      by_cases hlt : hx < tmin
      · simp only [trimTime, if_pos hlt]
        exact ih ty (by simpa using h)
      · simp only [trimTime, if_neg hlt]
        exact h

/-- The hard-cap trim pops from both deques together. -/
lemma trimCap_length_eq (cap : ℕ) (x y : List ℚ) (h : x.length = y.length) :
    (trimCap cap x y).1.length = (trimCap cap x y).2.length := by
  unfold trimCap
  split
  · simp [List.length_drop, h]
  · exact h

/-- One insertion-and-trim cycle keeps the deques the same length. -/
lemma appendTrim_length_eq (w : ℚ) (cap : ℕ) (x y : List ℚ) (t v : ℚ)
    (h : x.length = y.length) :
    (appendTrim w cap x y t v).1.length = (appendTrim w cap x y t v).2.length := by
  unfold appendTrim
  dsimp only
  exact trimCap_length_eq cap _ _
    (trimTime_length_eq (t - w) (x ++ [t]) (y ++ [v]) (by simp [h]))

/-- The raw-sink write leaves the deques untouched. -/
lemma logRaw_x (s : Session) (b : List Char) : (logRaw s b).x = s.x := by
  unfold logRaw
  split <;> rfl

/-- The raw-sink write leaves the deques untouched. -/
lemma logRaw_y (s : Session) (b : List Char) : (logRaw s b).y = s.y := by
  unfold logRaw
  split <;> rfl

/-- The processed-sink write leaves the deques untouched. -/
lemma logProc_x (s : Session) (st : Structured) : (logProc s st).x = s.x := by
  unfold logProc
  split <;> rfl

/-- The processed-sink write leaves the deques untouched. -/
lemma logProc_y (s : Session) (st : Structured) : (logProc s st).y = s.y := by
  unfold logProc
  split <;> rfl

/-- The per-line poll body keeps the deques the same length. -/
lemma processLine_length_eq (s : Session) (lb : List Char)
    (h : s.x.length = s.y.length) :
    (processLine s lb).1.x.length = (processLine s lb).1.y.length := by
  unfold processLine
  dsimp only
  cases parse_line (rstripCR lb) with
  | none =>
    dsimp only
    rw [logRaw_x, logRaw_y]
    exact h
  | some p =>
    cases p with
    | val v =>
      dsimp only
      rw [logRaw_x, logRaw_y]
      exact h
    | structured st =>
      dsimp only
      exact appendTrim_length_eq _ _ _ _ _ _
        (by rw [logProc_x, logRaw_x, logProc_y, logRaw_y]; exact h)

/-- The framing-and-processing loop keeps the deques the same length. -/
lemma drainLoop_length_eq : ∀ (rest acc : List Char) (s : Session),
    s.x.length = s.y.length →
    (drainLoop acc rest s).2.x.length = (drainLoop acc rest s).2.y.length := by
  intro rest
  induction rest with
  | nil => intro acc s h; exact h
  | cons c cr ih =>
    intro acc s h
    by_cases hc : c = '\n'
    · simp only [drainLoop, if_pos hc]
      have hp := processLine_length_eq s acc h
      split
      · exact hp
      · exact ih [] (processLine s acc).1 hp
    · simp only [drainLoop, if_neg hc]
      exact ih (acc ++ [c]) s h

/-- C10.  For every sequence of operations (polls, session resets, UI
refreshes, reconfiguration) starting from the initial state, the time deque
and the value deque have equal length: every mutation appends to or pops
from both together. -/
theorem c10_deques_same_length (ops : List Op) :
    (runOps initState ops).sess.x.length
      = (runOps initState ops).sess.y.length := by
  suffices h : ∀ (ops : List Op) (a : AppState),
      a.sess.x.length = a.sess.y.length →
      (runOps a ops).sess.x.length = (runOps a ops).sess.y.length by
    exact h ops initState rfl
  intro ops
  induction ops with
  | nil => intro a h; exact h
  | cons op rest ih =>
    intro a h
    rw [runOps, List.foldl_cons]
    refine ih (applyOp a op) ?_
    cases op with
    | poll chunk =>
      simp only [applyOp, poll_serial]
      split
      · exact h
      · exact drainLoop_length_eq (a.rx ++ chunk) [] a.sess h
    | reset => simp [applyOp, reset_session_state]
    | ui =>
      simp only [applyOp, update_ui]
      split <;> exact h
    | setWindow w => exact h
    | setField f => exact h
    | setPause b => exact h


end SerialMonitor
